import Mathlib

/-!
Verification development for the Memograph CLI drift-analysis core.

This file gives a shallow embedding, in Lean 4, of the deterministic core of
the repository (text normalization and similarity from `src/core/normalize.ts`,
and the event scoring/aggregation functions `calculateDriftScore` and
`calculateTokenWaste`), and proves or refutes the specified properties of
those functions.

Modelling conventions:
- JavaScript numbers are modelled as rationals (`ℚ`); the properties at stake
  (clamping, sums of integer weights, ratios of token counts) are exact
  rational statements.
- JavaScript strings are modelled as `String`/`List Char` (Unicode scalar
  values); `Set` objects of strings are modelled as `Finset String`, and the
  iteration over a `Set` of numbers is modelled by a duplicate-free list,
  which is sound for the order-insensitive folds (sums) performed over them.
- Optional record fields (`tokens?: number`) are modelled as `Option ℚ`; the
  JavaScript idiom `x || 0` on a numeric option is modelled as `Option.getD 0`
  (both send an absent value and a zero value to `0`).
- Fallible lookups (`Array.prototype.find`) are modelled as `List.find?`.
-/

namespace Memograph

/-- Role of a transcript message sender, from `TranscriptMessage` in
`src/core/types.ts` (`'system' | 'user' | 'assistant' | 'tool'`). -/
inductive Role where
  | system
  | user
  | assistant
  | tool
deriving DecidableEq

/-- Evidence bundle of a drift event, from `EventEvidence` in
`src/core/types.ts` (message indices and text snippets). -/
structure EventEvidence where
  msg_idxs : List Int
  snippets : List String
deriving DecidableEq

/-- A drift event, from `BaseDriftEvent` in `src/core/types.ts`.  The `type`
discriminator is kept as a plain string, since the scoring code treats it as
a string key into the weight table (unknown strings score 0). -/
structure DriftEvent where
  type : String
  severity : ℚ
  confidence : ℚ
  evidence : EventEvidence
  summary : String
deriving DecidableEq

/-- A transcript message, from `TranscriptMessage` in `src/core/types.ts`.
The `tokens` field is optional in the source (`tokens?: number`). -/
structure TranscriptMessage where
  idx : Int
  role : Role
  content : String
  tokens : Option ℚ
deriving DecidableEq

/-- The `DEFAULT_WEIGHTS` object of the scoring module, as a keyed lookup
from event-type strings to weights.  A key that is absent from the object
yields `none` (JavaScript `undefined`). -/
def DEFAULT_WEIGHTS : String → Option ℚ := fun t =>
  if t = "preference_forgotten" then some 15
  else if t = "repetition_cluster" then some 10
  else if t = "session_reset" then some 20
  else if t = "contradiction" then some 10
  else none

/-- Result record of `calculateDriftScore`. -/
structure DriftScore where
  drift_score : ℚ
  raw_score : ℚ
deriving DecidableEq

/-- `calculateDriftScore(events, weights)` from the scoring module: folds the
per-type weight over the events (`weights[event.type] || 0`, modelled as
`Option.getD 0`), then clamps with `Math.max(0, Math.min(100, raw_score))`. -/
def calculateDriftScore (events : List DriftEvent) (weights : String → Option ℚ) :
    DriftScore :=
  let raw_score := events.foldl (fun acc e => acc + (weights e.type).getD 0) 0
  let drift_score := max 0 (min 100 raw_score)
  ⟨drift_score, raw_score⟩

lemma foldl_add_map_sum {α : Type} (f : α → ℚ) (l : List α) (a : ℚ) :
    l.foldl (fun acc x => acc + f x) a = a + (l.map f).sum := by
  induction l generalizing a with
  | nil => simp
  | cons x l ih => simp [ih, add_assoc]

lemma calculateDriftScore_raw (events : List DriftEvent) (weights : String → Option ℚ) :
    (calculateDriftScore events weights).raw_score
      = (events.map (fun e => (weights e.type).getD 0)).sum := by
  show events.foldl (fun acc e => acc + (weights e.type).getD 0) 0 = _
  rw [foldl_add_map_sum]
  ring

lemma calculateDriftScore_drift (events : List DriftEvent) (weights : String → Option ℚ) :
    (calculateDriftScore events weights).drift_score
      = max 0 (min 100 (calculateDriftScore events weights).raw_score) := rfl

/-- Claim C2: for every event list (and weight table), the returned
`drift_score` is `clamp(raw_score, 0, 100)`: it equals
`max 0 (min 100 raw_score)`, always lies in `[0, 100]`, and coincides with
`raw_score` whenever `0 ≤ raw_score ≤ 100`. -/
theorem driftScore_clamp (events : List DriftEvent) (weights : String → Option ℚ) :
    (calculateDriftScore events weights).drift_score
        = max 0 (min 100 (calculateDriftScore events weights).raw_score) ∧
    0 ≤ (calculateDriftScore events weights).drift_score ∧
    (calculateDriftScore events weights).drift_score ≤ 100 ∧
    (0 ≤ (calculateDriftScore events weights).raw_score →
      (calculateDriftScore events weights).raw_score ≤ 100 →
      (calculateDriftScore events weights).drift_score
        = (calculateDriftScore events weights).raw_score) := by
  refine ⟨rfl, le_max_left _ _, ?_, ?_⟩
  · rw [calculateDriftScore_drift]
    exact max_le (by norm_num) (min_le_left _ _)
  · intro h0 h100
    rw [calculateDriftScore_drift, min_eq_right h100, max_eq_right h0]

/-- A concrete drift event used to instantiate the scoring theorems. -/
def sampleEvent (t : String) : DriftEvent :=
  { type := t, severity := 3, confidence := 9/10,
    evidence := { msg_idxs := [1, 4], snippets := ["please reply in bangla"] },
    summary := "sample" }

lemma weight_pref : (DEFAULT_WEIGHTS "preference_forgotten").getD 0 = 15 := rfl

lemma weight_rep : (DEFAULT_WEIGHTS "repetition_cluster").getD 0 = 10 := rfl

lemma sample_raw :
    (calculateDriftScore [sampleEvent "repetition_cluster",
        sampleEvent "preference_forgotten"] DEFAULT_WEIGHTS).raw_score = 25 := by
  rw [calculateDriftScore_raw]
  simp only [List.map_cons, List.map_nil, List.sum_cons, List.sum_nil, sampleEvent]
  rw [weight_pref, weight_rep]
  norm_num

/-- Witness for claim C2 at a concrete input: a list with one
`repetition_cluster` and one `preference_forgotten` event has
`raw_score = 25` inside `[0, 100]`, so `drift_score = raw_score` there. -/
theorem driftScore_clamp_witness :
    (calculateDriftScore [sampleEvent "repetition_cluster",
        sampleEvent "preference_forgotten"] DEFAULT_WEIGHTS).drift_score
      = (calculateDriftScore [sampleEvent "repetition_cluster",
        sampleEvent "preference_forgotten"] DEFAULT_WEIGHTS).raw_score :=
  (driftScore_clamp _ DEFAULT_WEIGHTS).2.2.2
    (by rw [sample_raw]; norm_num)
    (by rw [sample_raw]; norm_num)

/-- Claim C3: with the default weight table, `raw_score` is the sum over the
events of the per-type weight; the default weights are
`preference_forgotten = 15`, `repetition_cluster = 10`, `session_reset = 20`,
`contradiction = 10`; and any type outside the table contributes `0`
(the function is total, so no input makes it throw). -/
theorem rawScore_default_weights (events : List DriftEvent) :
    (calculateDriftScore events DEFAULT_WEIGHTS).raw_score
        = (events.map (fun e => (DEFAULT_WEIGHTS e.type).getD 0)).sum ∧
    (DEFAULT_WEIGHTS "preference_forgotten").getD 0 = 15 ∧
    (DEFAULT_WEIGHTS "repetition_cluster").getD 0 = 10 ∧
    (DEFAULT_WEIGHTS "session_reset").getD 0 = 20 ∧
    (DEFAULT_WEIGHTS "contradiction").getD 0 = 10 ∧
    (∀ t : String, t ≠ "preference_forgotten" → t ≠ "repetition_cluster" →
      t ≠ "session_reset" → t ≠ "contradiction" → (DEFAULT_WEIGHTS t).getD 0 = 0) := by
  refine ⟨calculateDriftScore_raw events DEFAULT_WEIGHTS, rfl, rfl, rfl, rfl, ?_⟩
  intro t h1 h2 h3 h4
  simp [DEFAULT_WEIGHTS, h1, h2, h3, h4]

/-- Witness for claim C3 at a concrete input: the unknown event type
`"hallucination"` contributes weight `0`. -/
theorem rawScore_default_weights_witness :
    (DEFAULT_WEIGHTS "hallucination").getD 0 = 0 :=
  (rawScore_default_weights []).2.2.2.2.2 "hallucination"
    (by decide) (by decide) (by decide) (by decide)

/-- Claim C9: `calculateDriftScore` depends only on the sequence of event
type strings: two event lists with pointwise-equal `type` fields produce
identical results, whatever their severity, confidence, evidence or
summary fields are. -/
theorem driftScore_depends_only_on_types (es1 es2 : List DriftEvent)
    (weights : String → Option ℚ)
    (h : es1.map (fun e => e.type) = es2.map (fun e => e.type)) :
    calculateDriftScore es1 weights = calculateDriftScore es2 weights := by
  have raw : ∀ es : List DriftEvent,
      (calculateDriftScore es weights).raw_score
        = (es.map (fun e => e.type)).foldl (fun acc t => acc + (weights t).getD 0) 0 := by
    intro es
    show es.foldl (fun acc e => acc + (weights e.type).getD 0) 0 = _
    rw [List.foldl_map]
  have hraw : (calculateDriftScore es1 weights).raw_score
      = (calculateDriftScore es2 weights).raw_score := by
    rw [raw, raw, h]
  have hdrift : (calculateDriftScore es1 weights).drift_score
      = (calculateDriftScore es2 weights).drift_score := by
    rw [calculateDriftScore_drift, calculateDriftScore_drift, hraw]
  cases h1 : calculateDriftScore es1 weights
  cases h2 : calculateDriftScore es2 weights
  rw [h1, h2] at hraw hdrift
  simp_all

/-- A second concrete event with the same type as `sampleEvent` but different
severity, confidence, evidence and summary. -/
def sampleEventAlt (t : String) : DriftEvent :=
  { type := t, severity := 5, confidence := 1/4,
    evidence := { msg_idxs := [7], snippets := [] },
    summary := "other" }

/-- Witness for claim C9 at a concrete input: two single-event lists that
agree on the type field but on nothing else score identically. -/
theorem driftScore_depends_only_on_types_witness :
    calculateDriftScore [sampleEvent "session_reset"] DEFAULT_WEIGHTS
      = calculateDriftScore [sampleEventAlt "session_reset"] DEFAULT_WEIGHTS :=
  driftScore_depends_only_on_types _ _ DEFAULT_WEIGHTS (by simp [sampleEvent, sampleEventAlt])

/-- `jaccardSimilarity(a, b)` from `src/core/normalize.ts`: returns `1.0`
when both sets are empty, `0.0` when exactly one is, and otherwise
`intersection.size / union.size`.  JavaScript `Set<string>` objects are
modelled as `Finset String`, and `size === 0` as `card = 0`. -/
def jaccardSimilarity (a b : Finset String) : ℚ :=
  if a.card = 0 ∧ b.card = 0 then 1
  else if a.card = 0 ∨ b.card = 0 then 0
  else ((a ∩ b).card : ℚ) / ((a ∪ b).card : ℚ)

lemma jaccard_def (a b : Finset String) :
    jaccardSimilarity a b
      = if a = ∅ ∧ b = ∅ then 1
        else if a = ∅ ∨ b = ∅ then 0
        else ((a ∩ b).card : ℚ) / ((a ∪ b).card : ℚ) := by
  simp only [jaccardSimilarity, Finset.card_eq_zero]

lemma jaccard_closed_form (a b : Finset String) :
    jaccardSimilarity a b
      = if a = ∅ ∧ b = ∅ then 1 else ((a ∩ b).card : ℚ) / ((a ∪ b).card : ℚ) := by
  by_cases ha : a = ∅ <;> by_cases hb : b = ∅
  · simp [jaccard_def, ha, hb]
  · simp [jaccard_def, ha, hb]
  · simp [jaccard_def, ha, hb]
  · simp [jaccard_def, ha, hb]

/-- Claim C5: `jaccardSimilarity` equals `|A ∩ B| / |A ∪ B|` with the stated
edge conventions (both empty gives 1, and with exactly one empty the quotient
itself is already 0), always lies in `[0, 1]`, and is symmetric. -/
theorem jaccard_spec (a b : Finset String) :
    jaccardSimilarity a b
        = (if a = ∅ ∧ b = ∅ then 1 else ((a ∩ b).card : ℚ) / ((a ∪ b).card : ℚ)) ∧
    0 ≤ jaccardSimilarity a b ∧ jaccardSimilarity a b ≤ 1 ∧
    jaccardSimilarity a b = jaccardSimilarity b a := by
  refine ⟨jaccard_closed_form a b, ?_, ?_, ?_⟩
  · rw [jaccard_closed_form]
    split
    · norm_num
    · exact div_nonneg (Nat.cast_nonneg _) (Nat.cast_nonneg _)
  · rw [jaccard_closed_form]
    split
    · norm_num
    · rename_i hne
      have hu : a ∪ b ≠ ∅ := by
        intro h
        exact hne (Finset.union_eq_empty.mp h)
      have hupos : 0 < ((a ∪ b).card : ℚ) := by
        exact_mod_cast Finset.card_pos.mpr (Finset.nonempty_iff_ne_empty.mpr hu)
      refine (div_le_one hupos).mpr ?_
      exact_mod_cast Finset.card_le_card
        (fun x hx => Finset.mem_union_left b (Finset.mem_inter.mp hx).1)
  · rw [jaccard_closed_form, jaccard_closed_form,
      Finset.inter_comm b a, Finset.union_comm b a]
    exact if_congr and_comm rfl rfl

/-- The default similarity threshold (`threshold = 0.65`) of `areSimilar`. -/
def DEFAULT_THRESHOLD : ℚ := 65 / 100

/-- `areSimilar(tokens1, tokens2, threshold)` from `src/core/normalize.ts`:
builds sets from the two token lists and compares their Jaccard similarity
against the threshold with `>=`. -/
def areSimilar (tokens1 tokens2 : List String) (threshold : ℚ) : Bool :=
  decide (jaccardSimilarity tokens1.toFinset tokens2.toFinset ≥ threshold)

/-- Claim C6: `areSimilar` returns `true` exactly when the Jaccard similarity
of the two token sets is at least the threshold; in particular it returns
`true` at exact equality with the threshold and `false` strictly below it. -/
theorem areSimilar_iff (tokens1 tokens2 : List String) (threshold : ℚ) :
    (areSimilar tokens1 tokens2 threshold = true ↔
      jaccardSimilarity tokens1.toFinset tokens2.toFinset ≥ threshold) ∧
    (jaccardSimilarity tokens1.toFinset tokens2.toFinset = threshold →
      areSimilar tokens1 tokens2 threshold = true) ∧
    (jaccardSimilarity tokens1.toFinset tokens2.toFinset < threshold →
      areSimilar tokens1 tokens2 threshold = false) := by
  refine ⟨by simp [areSimilar], ?_, ?_⟩
  · intro h
    simp [areSimilar, h]
  · intro h
    simp [areSimilar]
    exact h

lemma sample_jaccard_half :
    jaccardSimilarity (["a", "b"] : List String).toFinset
      (["a", "b", "c", "d"] : List String).toFinset = 1 / 2 := by
  have hA : (["a", "b"] : List String).toFinset.card = 2 := by decide
  have hB : (["a", "b", "c", "d"] : List String).toFinset.card = 4 := by decide
  have hI : ((["a", "b"] : List String).toFinset ∩
      (["a", "b", "c", "d"] : List String).toFinset).card = 2 := by decide
  have hU : ((["a", "b"] : List String).toFinset ∪
      (["a", "b", "c", "d"] : List String).toFinset).card = 4 := by decide
  rw [jaccardSimilarity, hA, hB, hI, hU]
  norm_num

lemma sample_jaccard_quarter :
    jaccardSimilarity (["a"] : List String).toFinset
      (["a", "b", "c", "d"] : List String).toFinset = 1 / 4 := by
  have hA : (["a"] : List String).toFinset.card = 1 := by decide
  have hB : (["a", "b", "c", "d"] : List String).toFinset.card = 4 := by decide
  have hI : ((["a"] : List String).toFinset ∩
      (["a", "b", "c", "d"] : List String).toFinset).card = 1 := by decide
  have hU : ((["a"] : List String).toFinset ∪
      (["a", "b", "c", "d"] : List String).toFinset).card = 4 := by decide
  rw [jaccardSimilarity, hA, hB, hI, hU]
  norm_num

/-- Witness for claim C6 at concrete inputs: with threshold `1/2`, token
lists of similarity exactly `1/2` are accepted and token lists of
similarity `1/4` are rejected. -/
theorem areSimilar_iff_witness :
    areSimilar ["a", "b"] ["a", "b", "c", "d"] (1 / 2) = true ∧
    areSimilar ["a"] ["a", "b", "c", "d"] (1 / 2) = false :=
  ⟨(areSimilar_iff _ _ _).2.1 sample_jaccard_half,
   (areSimilar_iff _ _ _).2.2 (by rw [sample_jaccard_quarter]; norm_num)⟩

/-- The default signature length (`n = 8`) of `makeSignature`. -/
def SIGNATURE_N : Nat := 8

/-- `makeSignature(tokens, n)` from `src/core/normalize.ts`:
`tokens.slice(0, n).join(' ')`. -/
def makeSignature (tokens : List String) (n : Nat) : String :=
  String.intercalate " " (tokens.take n)

/-- Claim C8: `makeSignature` (default `n = 8`) joins the first `n` tokens
with single spaces; with fewer than `n` tokens it joins all of them; with no
tokens it yields the empty string; and it is prefix-stable: appending tokens
beyond position `n` does not change the signature. -/
theorem makeSignature_spec (tokens extra : List String) (n : Nat) :
    SIGNATURE_N = 8 ∧
    (tokens.length ≤ n → makeSignature tokens n = String.intercalate " " tokens) ∧
    makeSignature [] n = "" ∧
    (n ≤ tokens.length → makeSignature (tokens ++ extra) n = makeSignature tokens n) := by
  refine ⟨rfl, ?_, ?_, ?_⟩
  · intro h
    rw [makeSignature, List.take_of_length_le h]
  · rw [makeSignature, List.take_nil]
    rfl
  · intro h
    rw [makeSignature, makeSignature, List.take_append_of_le_length h]

/-- Witness for claim C8 at a concrete input: appending an extra token
beyond position `n = 2` leaves the signature of two tokens unchanged, and
two tokens are all joined when `n = 5`. -/
theorem makeSignature_spec_witness :
    makeSignature (["hello", "world"] ++ ["extra"]) 2 = makeSignature ["hello", "world"] 2 ∧
    makeSignature ["hello", "world"] 5 = String.intercalate " " ["hello", "world"] :=
  ⟨(makeSignature_spec ["hello", "world"] ["extra"] 2).2.2.2 (by decide),
   (makeSignature_spec ["hello", "world"] [] 5).2.1 (by decide)⟩

/-- The whitespace class of JavaScript regular expressions (`\s`) and of
`String.prototype.trim`: tab, LF, VT, FF, CR, space, NBSP, U+1680, the
U+2000 to U+200A space separators, U+2028, U+2029, U+202F, U+205F, U+3000
and U+FEFF, by scalar value. -/
def jsIsWhitespace (c : Char) : Bool :=
  decide (c.toNat = 9 ∨ c.toNat = 10 ∨ c.toNat = 11 ∨ c.toNat = 12 ∨ c.toNat = 13 ∨
    c.toNat = 32 ∨ c.toNat = 160 ∨ c.toNat = 0x1680 ∨
    (0x2000 ≤ c.toNat ∧ c.toNat ≤ 0x200A) ∨
    c.toNat = 0x2028 ∨ c.toNat = 0x2029 ∨ c.toNat = 0x202F ∨
    c.toNat = 0x205F ∨ c.toNat = 0x3000 ∨ c.toNat = 0xFEFF)

/-- The word-character class of JavaScript regular expressions (`\w` without
the `u` flag): the ASCII ranges `a`-`z`, `A`-`Z`, `0`-`9` and `_`, by scalar
value (97-122, 65-90, 48-57, 95). -/
def jsIsWordChar (c : Char) : Bool :=
  decide ((97 ≤ c.toNat ∧ c.toNat ≤ 122) ∨ (65 ≤ c.toNat ∧ c.toNat ≤ 90) ∨
    (48 ≤ c.toNat ∧ c.toNat ≤ 57) ∨ c.toNat = 95)

/-- Per-character model of `String.prototype.toLowerCase` on its simple
(ASCII `A`-`Z` to `a`-`z`) case mapping, which is the fragment the
normalization properties depend on. -/
def jsToLower (c : Char) : Char :=
  if 65 ≤ c.toNat ∧ c.toNat ≤ 90 then Char.ofNat (c.toNat + 32) else c

/-- `text.toLowerCase()`, character by character. -/
def toLowerCase (s : List Char) : List Char := s.map jsToLower

/-- `text.trim()`: drop the whitespace run at each end. -/
def trim (s : List Char) : List Char :=
  (((s.dropWhile jsIsWhitespace).reverse).dropWhile jsIsWhitespace).reverse

/-- Worker for `collapseWS`: the flag records whether the previous character
belonged to a whitespace run whose single replacement space was already
emitted. -/
def collapseAux : Bool → List Char → List Char
  | _, [] => []
  | prevWS, c :: cs =>
    if jsIsWhitespace c then
      if prevWS then collapseAux true cs
      else ' ' :: collapseAux true cs
    else
      c :: collapseAux false cs

/-- `text.replace(/\s+/g, ' ')`: every maximal whitespace run becomes one
space. -/
def collapseWS (s : List Char) : List Char := collapseAux false s

/-- The complement of the character class `[^\w\s]`: the characters that
`normalizeText` keeps. -/
def charOK (c : Char) : Bool := jsIsWordChar c || jsIsWhitespace c

/-- `text.replace(/[^\w\s]/g, '')`: delete every character that is neither a
word character nor whitespace. -/
def stripSpecial (s : List Char) : List Char := s.filter charOK

/-- `normalizeText(text)` from `src/core/normalize.ts`:
`text.toLowerCase().trim().replace(/\s+/g, ' ').replace(/[^\w\s]/g, '')`,
in that order. -/
def normalizeText (s : List Char) : List Char :=
  stripSpecial (collapseWS (trim (toLowerCase s)))

example : normalizeText "  Hello,   WORLD!  ".toList = "hello world".toList := by decide
example : normalizeText "a !".toList = ['a', ' '] := by decide
example : normalizeText "é".toList = [] := by decide
example : trim "  ab  ".toList = "ab".toList := by decide

lemma toNat_charOfNat (n : Nat) (h : n < 55296) : (Char.ofNat n).toNat = n := by
  unfold Char.ofNat
  rw [dif_pos (Or.inl h)]
  simp [Char.ofNatAux, Char.toNat, UInt32.toNat]

lemma jsToLower_not_upper (c : Char) :
    ¬(65 ≤ (jsToLower c).toNat ∧ (jsToLower c).toNat ≤ 90) := by
  unfold jsToLower
  split_ifs with h
  · rw [toNat_charOfNat _ (by omega)]
    omega
  · exact h

lemma jsToLower_eq_self (c : Char) (h : ¬(65 ≤ c.toNat ∧ c.toNat ≤ 90)) :
    jsToLower c = c := if_neg h

lemma jsIsWhitespace_jsToLower (c : Char) :
    jsIsWhitespace (jsToLower c) = jsIsWhitespace c := by
  unfold jsToLower
  split_ifs with h
  · unfold jsIsWhitespace
    rw [toNat_charOfNat _ (by omega), decide_eq_decide]
    constructor <;> intro h1 <;> omega
  · rfl

lemma jsIsWordChar_jsToLower (c : Char) :
    jsIsWordChar (jsToLower c) = jsIsWordChar c := by
  unfold jsToLower
  split_ifs with h
  · unfold jsIsWordChar
    rw [toNat_charOfNat _ (by omega), decide_eq_decide]
    constructor <;> intro h1 <;> omega
  · rfl

lemma charOK_jsToLower (c : Char) : charOK (jsToLower c) = charOK c := by
  unfold charOK
  rw [jsIsWordChar_jsToLower, jsIsWhitespace_jsToLower]

lemma mem_trim (c : Char) (s : List Char) (h : c ∈ trim s) : c ∈ s := by
  unfold trim at h
  rw [List.mem_reverse] at h
  have h1 := (List.dropWhile_suffix jsIsWhitespace).subset h
  rw [List.mem_reverse] at h1
  exact (List.dropWhile_suffix jsIsWhitespace).subset h1

lemma mem_collapseAux {c : Char} :
    ∀ (l : List Char) (b : Bool), c ∈ collapseAux b l → c = ' ' ∨ c ∈ l := by
  intro l
  induction l with
  | nil => intro b h; simp [collapseAux] at h
  | cons a l ih =>
    intro b h
    by_cases hws : jsIsWhitespace a
    · cases b with
      | true =>
        rw [show collapseAux true (a :: l) = collapseAux true l from by
          simp [collapseAux, hws]] at h
        rcases ih true h with h1 | h1
        · exact Or.inl h1
        · exact Or.inr (List.mem_cons_of_mem a h1)
      | false =>
        rw [show collapseAux false (a :: l) = ' ' :: collapseAux true l from by
          simp [collapseAux, hws]] at h
        rcases List.mem_cons.mp h with h1 | h1
        · exact Or.inl h1
        · rcases ih true h1 with h2 | h2
          · exact Or.inl h2
          · exact Or.inr (List.mem_cons_of_mem a h2)
    · rw [show collapseAux b (a :: l) = a :: collapseAux false l from by
        simp [collapseAux, hws]] at h
      rcases List.mem_cons.mp h with h1 | h1
      · exact Or.inr (by rw [h1]; exact List.mem_cons_self a l)
      · rcases ih false h1 with h2 | h2
        · exact Or.inl h2
        · exact Or.inr (List.mem_cons_of_mem a h2)

lemma head_dropWhile_not (p : Char → Bool) (l : List Char) (c : Char)
    (h : (l.dropWhile p).head? = some c) : p c = false := by
  have h1 := List.head?_dropWhile_not p l
  rw [h] at h1
  simpa using h1

lemma dropWhile_eq_self_of_head (p : Char → Bool) (l : List Char)
    (h : ∀ c, l.head? = some c → p c = false) : l.dropWhile p = l := by
  cases l with
  | nil => rfl
  | cons a l => simp [List.dropWhile_cons, h a rfl]

lemma collapseAux_true_head (l : List Char) (c : Char)
    (h : (collapseAux true l).head? = some c) : jsIsWhitespace c = false := by
  induction l with
  | nil => simp [collapseAux] at h
  | cons a l ih =>
    by_cases hws : jsIsWhitespace a
    · rw [show collapseAux true (a :: l) = collapseAux true l from by
        simp [collapseAux, hws]] at h
      exact ih h
    · rw [show collapseAux true (a :: l) = a :: collapseAux false l from by
        simp [collapseAux, hws], List.head?_cons] at h
      injection h with h
      rw [← h]
      simpa using hws

lemma collapseAux_true_eq_nil (l : List Char) (h : collapseAux true l = []) :
    ∀ x ∈ l, jsIsWhitespace x = true := by
  induction l with
  | nil => intro x hx; simp at hx
  | cons a l ih =>
    by_cases hws : jsIsWhitespace a
    · rw [show collapseAux true (a :: l) = collapseAux true l from by
        simp [collapseAux, hws]] at h
      intro x hx
      rcases List.mem_cons.mp hx with h1 | h1
      · rw [h1]; exact hws
      · exact ih h x h1
    · rw [show collapseAux true (a :: l) = a :: collapseAux false l from by
        simp [collapseAux, hws]] at h
      simp at h

lemma getLast?_cons_of_ne_nil (a : Char) (l : List Char) (h : l ≠ []) :
    (a :: l).getLast? = l.getLast? := by
  cases l with
  | nil => exact absurd rfl h
  | cons b m => exact List.getLast?_cons_cons

lemma exists_getLast?_mem {α : Type} (l : List α) (h : l ≠ []) :
    ∃ d, l.getLast? = some d ∧ d ∈ l := by
  cases hl : l.getLast? with
  | none => rw [List.getLast?_eq_none_iff] at hl; exact absurd hl h
  | some d => exact ⟨d, rfl, List.mem_of_getLast?_eq_some hl⟩

lemma ne_nil_of_getLast?_eq_some {α : Type} {l : List α} {d : α}
    (h : l.getLast? = some d) : l ≠ [] := by
  intro he
  rw [he] at h
  simp at h

lemma collapseAux_getLast_ws :
    ∀ (l : List Char) (b : Bool) (c : Char),
      (collapseAux b l).getLast? = some c → jsIsWhitespace c = true →
      ∃ d, l.getLast? = some d ∧ jsIsWhitespace d = true := by
  intro l
  induction l with
  | nil => intro b c h _; simp [collapseAux] at h
  | cons a l ih =>
    intro b c h hc
    by_cases hws : jsIsWhitespace a
    · cases b with
      | true =>
        rw [show collapseAux true (a :: l) = collapseAux true l from by
          simp [collapseAux, hws]] at h
        rcases ih true c h hc with ⟨d, hd, hdws⟩
        exact ⟨d, by
          rw [getLast?_cons_of_ne_nil a l (ne_nil_of_getLast?_eq_some hd)]; exact hd, hdws⟩
      | false =>
        rw [show collapseAux false (a :: l) = ' ' :: collapseAux true l from by
          simp [collapseAux, hws]] at h
        by_cases hX : collapseAux true l = []
        · have hall := collapseAux_true_eq_nil l hX
          cases l with
          | nil => exact ⟨a, by simp, hws⟩
          | cons x m =>
            obtain ⟨d, hd, hdmem⟩ := exists_getLast?_mem (x :: m) (by simp)
            exact ⟨d, by
              rw [getLast?_cons_of_ne_nil a _ (by simp)]; exact hd, hall d hdmem⟩
        · rw [getLast?_cons_of_ne_nil ' ' _ hX] at h
          rcases ih true c h hc with ⟨d, hd, hdws⟩
          exact ⟨d, by
            rw [getLast?_cons_of_ne_nil a l (ne_nil_of_getLast?_eq_some hd)]; exact hd, hdws⟩
    · rw [show collapseAux b (a :: l) = a :: collapseAux false l from by
        simp [collapseAux, hws]] at h
      by_cases hX : collapseAux false l = []
      · rw [hX] at h
        have hca : c = a := by simpa using h.symm
        rw [hca] at hc
        exact absurd hc (by simpa using hws)
      · rw [getLast?_cons_of_ne_nil a _ hX] at h
        rcases ih false c h hc with ⟨d, hd, hdws⟩
        exact ⟨d, by
          rw [getLast?_cons_of_ne_nil a l (ne_nil_of_getLast?_eq_some hd)]; exact hd, hdws⟩

/-- Invariant of the output of `collapseWS`: no two adjacent whitespace
characters, and every whitespace character is the plain space. -/
def WSNormed (l : List Char) : Prop :=
  l.Chain' (fun a b => jsIsWhitespace a = false ∨ jsIsWhitespace b = false) ∧
  ∀ c ∈ l, jsIsWhitespace c = true → c = ' '

lemma collapseAux_WSNormed : ∀ (l : List Char) (b : Bool), WSNormed (collapseAux b l) := by
  intro l
  induction l with
  | nil => intro b; exact ⟨List.chain'_nil, by simp [collapseAux]⟩
  | cons a l ih =>
    intro b
    by_cases hws : jsIsWhitespace a
    · cases b with
      | true =>
        rw [show collapseAux true (a :: l) = collapseAux true l from by
          simp [collapseAux, hws]]
        exact ih true
      | false =>
        rw [show collapseAux false (a :: l) = ' ' :: collapseAux true l from by
          simp [collapseAux, hws]]
        refine ⟨?_, ?_⟩
        · rw [List.chain'_cons']
          refine ⟨?_, (ih true).1⟩
          intro y hy
          exact Or.inr (collapseAux_true_head l y hy)
        · intro c hc hcws
          rcases List.mem_cons.mp hc with h1 | h1
          · exact h1
          · exact (ih true).2 c h1 hcws
    · rw [show collapseAux b (a :: l) = a :: collapseAux false l from by
        simp [collapseAux, hws]]
      refine ⟨?_, ?_⟩
      · rw [List.chain'_cons']
        exact ⟨fun y _ => Or.inl (by simpa using hws), (ih false).1⟩
      · intro c hc hcws
        rcases List.mem_cons.mp hc with h1 | h1
        · rw [h1] at hcws
          exact absurd hcws (by simpa using hws)
        · exact (ih false).2 c h1 hcws

lemma collapseAux_eq_self :
    ∀ l : List Char, WSNormed l →
      collapseAux false l = l ∧
      ((∀ c, l.head? = some c → jsIsWhitespace c = false) → collapseAux true l = l) := by
  intro l
  induction l with
  | nil => intro _; exact ⟨rfl, fun _ => rfl⟩
  | cons a l ih =>
    intro h
    have htail : WSNormed l := ⟨h.1.tail, fun c hc => h.2 c (List.mem_cons_of_mem a hc)⟩
    by_cases hws : jsIsWhitespace a
    · have ha : a = ' ' := h.2 a (List.mem_cons_self a l) hws
      have hheadl : ∀ c, l.head? = some c → jsIsWhitespace c = false := by
        intro c hc
        rcases (List.chain'_cons'.mp h.1).1 c (by rw [hc]; rfl) with h1 | h1
        · rw [hws] at h1
          exact absurd h1 (by simp)
        · exact h1
      constructor
      · rw [show collapseAux false (a :: l) = ' ' :: collapseAux true l from by
          simp [collapseAux, hws]]
        rw [(ih htail).2 hheadl, ha]
      · intro hh
        exact absurd (hh a rfl) (by simpa using hws)
    · have e : ∀ b : Bool, collapseAux b (a :: l) = a :: collapseAux false l := by
        intro b
        simp [collapseAux, hws]
      exact ⟨by rw [e false, (ih htail).1], fun _ => by rw [e true, (ih htail).1]⟩

lemma trim_head (l : List Char) (c : Char) (h : (trim l).head? = some c) :
    jsIsWhitespace c = false := by
  unfold trim at h
  rw [List.head?_reverse] at h
  have ht2ne : (l.dropWhile jsIsWhitespace).reverse.dropWhile jsIsWhitespace ≠ [] :=
    ne_nil_of_getLast?_eq_some h
  obtain ⟨pre, hpre⟩ := List.dropWhile_suffix (l := (l.dropWhile jsIsWhitespace).reverse)
    jsIsWhitespace
  have heq := congrArg List.getLast? hpre
  rw [List.getLast?_append_of_ne_nil pre ht2ne] at heq
  rw [heq, List.getLast?_reverse] at h
  exact head_dropWhile_not _ _ _ h

lemma trim_last (l : List Char) (c : Char) (h : (trim l).getLast? = some c) :
    jsIsWhitespace c = false := by
  unfold trim at h
  rw [List.getLast?_reverse] at h
  exact head_dropWhile_not _ _ _ h

lemma trim_eq_self (l : List Char)
    (h1 : ∀ c, l.head? = some c → jsIsWhitespace c = false)
    (h2 : ∀ c, l.getLast? = some c → jsIsWhitespace c = false) :
    trim l = l := by
  unfold trim
  rw [dropWhile_eq_self_of_head _ _ h1,
    dropWhile_eq_self_of_head _ _ (fun c hc => h2 c (by rwa [List.head?_reverse] at hc)),
    List.reverse_reverse]

lemma toLowerCase_eq_self (l : List Char)
    (h : ∀ c ∈ l, ¬(65 ≤ c.toNat ∧ c.toNat ≤ 90)) : toLowerCase l = l := by
  unfold toLowerCase
  rw [List.map_congr_left (fun c hc => jsToLower_eq_self c (h c hc))]
  exact List.map_id' l

lemma stripSpecial_eq_self (l : List Char) (h : ∀ c ∈ l, charOK c = true) :
    stripSpecial l = l :=
  List.filter_eq_self.mpr h

lemma mem_stripSpecial_charOK (l : List Char) : ∀ c ∈ stripSpecial l, charOK c = true := by
  intro c hc
  exact List.of_mem_filter hc

lemma collapseWS_head (t : List Char)
    (hth : ∀ c, t.head? = some c → jsIsWhitespace c = false) :
    ∀ c, (collapseWS t).head? = some c → jsIsWhitespace c = false := by
  intro c hc
  cases t with
  | nil => simp [collapseWS, collapseAux] at hc
  | cons a t2 =>
    have ha : jsIsWhitespace a = false := hth a rfl
    rw [show collapseWS (a :: t2) = a :: collapseAux false t2 from by
      simp [collapseWS, collapseAux, ha], List.head?_cons] at hc
    injection hc with hc
    rw [← hc]
    exact ha

lemma collapseWS_last (t : List Char)
    (htl : ∀ c, t.getLast? = some c → jsIsWhitespace c = false) :
    ∀ c, (collapseWS t).getLast? = some c → jsIsWhitespace c = false := by
  intro c hc
  by_cases hcw : jsIsWhitespace c
  · rcases collapseAux_getLast_ws t false c hc hcw with ⟨d, hd, hdws⟩
    rw [htl d hd] at hdws
    exact absurd hdws (by simp)
  · simpa using hcw

lemma clean_collapse_trim_lower (s : List Char) (h : ∀ c ∈ s, charOK c = true) :
    ∀ c ∈ collapseWS (trim (toLowerCase s)), charOK c = true := by
  intro c hc
  rcases mem_collapseAux _ _ hc with h1 | h1
  · rw [h1]; decide
  · have h2 := mem_trim _ _ h1
    rcases List.mem_map.mp h2 with ⟨d, hd, hde⟩
    rw [← hde, charOK_jsToLower]
    exact h d hd

lemma noupper_collapse_trim_lower (s : List Char) :
    ∀ c ∈ collapseWS (trim (toLowerCase s)), ¬(65 ≤ c.toNat ∧ c.toNat ≤ 90) := by
  intro c hc
  rcases mem_collapseAux _ _ hc with h1 | h1
  · rw [h1]; decide
  · have h2 := mem_trim _ _ h1
    rcases List.mem_map.mp h2 with ⟨d, hd, hde⟩
    rw [← hde]
    exact jsToLower_not_upper d

lemma normalizeText_eq_collapse_of_clean (s : List Char)
    (h : ∀ c ∈ s, charOK c = true) :
    normalizeText s = collapseWS (trim (toLowerCase s)) := by
  unfold normalizeText
  exact stripSpecial_eq_self _ (clean_collapse_trim_lower s h)

lemma normalizeText_fixpoint (u : List Char)
    (hok : ∀ c ∈ u, charOK c = true)
    (hnoup : ∀ c ∈ u, ¬(65 ≤ c.toNat ∧ c.toNat ≤ 90))
    (hwsn : WSNormed u)
    (hh : ∀ c, u.head? = some c → jsIsWhitespace c = false)
    (hl : ∀ c, u.getLast? = some c → jsIsWhitespace c = false) :
    normalizeText u = u := by
  unfold normalizeText
  rw [toLowerCase_eq_self u hnoup, trim_eq_self u hh hl,
    show collapseWS u = u from (collapseAux_eq_self u hwsn).1]
  exact stripSpecial_eq_self u hok

lemma normalizeText_idem_of_clean (s : List Char)
    (h : ∀ c ∈ s, charOK c = true) :
    normalizeText (normalizeText s) = normalizeText s := by
  rw [normalizeText_eq_collapse_of_clean s h]
  exact normalizeText_fixpoint _
    (clean_collapse_trim_lower s h)
    (noupper_collapse_trim_lower s)
    (collapseAux_WSNormed _ false)
    (collapseWS_head _ (trim_head (toLowerCase s)))
    (collapseWS_last _ (trim_last (toLowerCase s)))

/-- Claim C1 (amended): `normalizeText` is idempotent on strings that contain
no special character (no character of the class stripped by `[^\w\s]`); on
arbitrary strings the result stabilizes only from the second application on:
`normalizeText ∘ normalizeText ∘ normalizeText = normalizeText ∘ normalizeText`. -/
theorem normalizeText_idem (s : List Char) :
    ((∀ c ∈ s, charOK c = true) →
      normalizeText (normalizeText s) = normalizeText s) ∧
    normalizeText (normalizeText (normalizeText s))
      = normalizeText (normalizeText s) := by
  refine ⟨normalizeText_idem_of_clean s, ?_⟩
  exact normalizeText_idem_of_clean (normalizeText s)
    (mem_stripSpecial_charOK (collapseWS (trim (toLowerCase s))))

/-- Counterexample to claim C1 as stated: on the input `"a !"` the code
returns `"a "` (the stripped `!` leaves behind the space before it), and a
second application shortens that to `"a"`, so `normalizeText` is not
idempotent. -/
theorem normalizeText_not_idem :
    normalizeText (normalizeText "a !".toList) ≠ normalizeText "a !".toList := by
  decide

/-- Witness for claim C1 (amended) at a concrete input: `"Hello  World"`
contains only word characters and whitespace, and normalizing it twice
equals normalizing it once. -/
theorem normalizeText_idem_witness :
    normalizeText (normalizeText "Hello  World".toList)
      = normalizeText "Hello  World".toList :=
  (normalizeText_idem "Hello  World".toList).1 (by decide)

/-- Claim C7: the code strips every character outside the ASCII class
`[A-Za-z0-9_]` and whitespace, so on the claimed behavior of preserving
Unicode word characters it diverges: the Unicode letter `é` is a word
character, yet `normalizeText "é"` returns the empty string (the regex `\w`
in the source is ASCII-only).  On ASCII input the code does lowercase, trim,
collapse whitespace and strip special characters as described. -/
theorem normalizeText_strips_unicode_letters :
    normalizeText "é".toList = [] ∧
    jsIsWordChar 'é' = false ∧
    normalizeText "  Hello,   WORLD!  ".toList = "hello world".toList := by
  refine ⟨by decide, by decide, by decide⟩

/-- Body of the waste-token loop of `calculateTokenWaste`: for one index,
`messages.find(m => m.idx === idx)` and, if the found message has role
`user`, its `tokens || 0`; a dangling index or a non-user message
contributes `0`. -/
def userTokensAt (messages : List TranscriptMessage) (idx : Int) : ℚ :=
  match messages.find? (fun m => m.idx == idx) with
  | some m => if m.role = Role.user then m.tokens.getD 0 else 0
  | none => 0

/-- `calculateTokenWaste(messages, events)` from the scoring module: return
`0` when there is no `repetition_cluster` event; otherwise collect the set of
evidence `msg_idxs` of the repetition events (the JavaScript `Set` is
modelled by `List.dedup`; the fold over it is a sum, which does not depend
on the iteration order), sum the waste tokens via `userTokensAt`, sum all
`tokens || 0` as the total, return `0` when the total is `0`, and otherwise
`wasteTokens / totalTokens * 100`. -/
def calculateTokenWaste (messages : List TranscriptMessage) (events : List DriftEvent) : ℚ :=
  let repetitionEvents := events.filter (fun e => e.type == "repetition_cluster")
  if repetitionEvents = [] then 0
  else
    let wasteIndices := (repetitionEvents.flatMap (fun e => e.evidence.msg_idxs)).dedup
    let wasteTokens := (wasteIndices.map (userTokensAt messages)).sum
    let totalTokens := (messages.map (fun m => m.tokens.getD 0)).sum
    if totalTokens = 0 then 0
    else wasteTokens / totalTokens * 100

/-- The union of evidence `msg_idxs` over the `repetition_cluster` events,
as a list of indices (membership in it is the union membership). -/
def specWasteIdxs (events : List DriftEvent) : List Int :=
  (events.filter (fun e => e.type == "repetition_cluster")).flatMap
    (fun e => e.evidence.msg_idxs)

/-- The token-waste percentage as the specification words it (for the
refinement comparison of claim C4): sum the tokens of the user-role
messages whose `idx` lies in the union of repetition evidence indices, put
that over the total tokens of all messages, times 100, with `0` when the
total is `0`. -/
def specTokenWaste (messages : List TranscriptMessage) (events : List DriftEvent) : ℚ :=
  let waste := (messages.map (fun m =>
    if m.role = Role.user ∧ m.idx ∈ specWasteIdxs events then m.tokens.getD 0 else 0)).sum
  let total := (messages.map (fun m => m.tokens.getD 0)).sum
  if total = 0 then 0 else 100 * waste / total

lemma calculateTokenWaste_eq (messages : List TranscriptMessage) (events : List DriftEvent) :
    calculateTokenWaste messages events
      = if events.filter (fun e => e.type == "repetition_cluster") = [] then 0
        else if (messages.map (fun m => m.tokens.getD 0)).sum = 0 then 0
        else (((events.filter (fun e => e.type == "repetition_cluster")).flatMap
            (fun e => e.evidence.msg_idxs)).dedup.map (userTokensAt messages)).sum
          / (messages.map (fun m => m.tokens.getD 0)).sum * 100 := rfl

lemma specTokenWaste_eq (messages : List TranscriptMessage) (events : List DriftEvent) :
    specTokenWaste messages events
      = if (messages.map (fun m => m.tokens.getD 0)).sum = 0 then 0
        else 100 * (messages.map (fun m =>
            if m.role = Role.user ∧ m.idx ∈ specWasteIdxs events then m.tokens.getD 0
            else 0)).sum / (messages.map (fun m => m.tokens.getD 0)).sum := rfl

lemma userTokensAt_cons (m : TranscriptMessage) (ms : List TranscriptMessage) (i : Int) :
    userTokensAt (m :: ms) i
      = if m.idx = i then (if m.role = Role.user then m.tokens.getD 0 else 0)
        else userTokensAt ms i := by
  unfold userTokensAt
  rw [List.find?_cons]
  by_cases h : m.idx = i
  · rw [if_pos h, show (m.idx == i) = true from beq_iff_eq.mpr h]
  · rw [if_neg h, show (m.idx == i) = false from by simp [h]]

/-- Summing the find-first waste contribution over a duplicate-free index
list equals summing, over the messages, the tokens of the user messages
whose index is in the list - provided message indices are unique. -/
lemma sum_userTokensAt_eq :
    ∀ (msgs : List TranscriptMessage) (is : List Int), is.Nodup →
      (msgs.map (fun m => m.idx)).Nodup →
      (is.map (userTokensAt msgs)).sum
        = (msgs.map (fun m =>
            if m.role = Role.user ∧ m.idx ∈ is then m.tokens.getD 0 else 0)).sum := by
  intro msgs
  induction msgs with
  | nil =>
    intro is _ _
    rw [List.map_congr_left (fun i _ => show userTokensAt [] i = 0 from rfl)]
    simp
  | cons m ms ih =>
    intro is his hidx
    have hm : m.idx ∉ ms.map (fun m2 => m2.idx) := (List.nodup_cons.mp hidx).1
    have hms : (ms.map (fun m2 => m2.idx)).Nodup := (List.nodup_cons.mp hidx).2
    rw [List.map_congr_left (fun i _ => userTokensAt_cons m ms i)]
    rw [List.map_cons, List.sum_cons]
    by_cases hmem : m.idx ∈ is
    · have hperm := (List.perm_cons_erase hmem).map
        (fun i => if m.idx = i then (if m.role = Role.user then m.tokens.getD 0 else 0)
          else userTokensAt ms i)
      rw [hperm.sum_eq, List.map_cons, List.sum_cons, if_pos rfl]
      have htl : ∀ i ∈ is.erase m.idx,
          (if m.idx = i then (if m.role = Role.user then m.tokens.getD 0 else 0)
            else userTokensAt ms i) = userTokensAt ms i := by
        intro i hi
        exact if_neg (fun he => (his.mem_erase_iff.mp hi).1 he.symm)
      rw [List.map_congr_left htl, ih (is.erase m.idx) (his.erase _) hms]
      have hconv : ∀ m2 ∈ ms,
          (if m2.role = Role.user ∧ m2.idx ∈ is.erase m.idx then m2.tokens.getD 0 else 0)
            = (if m2.role = Role.user ∧ m2.idx ∈ is then m2.tokens.getD 0 else 0) := by
        intro m2 hm2
        have hne : m2.idx ≠ m.idx := by
          intro he
          exact hm (he ▸ List.mem_map_of_mem (fun m3 => m3.idx) hm2)
        refine if_congr (and_congr_right fun _ => ?_) rfl rfl
        rw [his.mem_erase_iff]
        exact ⟨fun h => h.2, fun h => ⟨hne, h⟩⟩
      rw [List.map_congr_left hconv]
      have : (if m.role = Role.user ∧ m.idx ∈ is then m.tokens.getD 0 else 0)
          = (if m.role = Role.user then m.tokens.getD 0 else 0) := by
        simp [hmem]
      rw [this]
    · have htl : ∀ i ∈ is,
          (if m.idx = i then (if m.role = Role.user then m.tokens.getD 0 else 0)
            else userTokensAt ms i) = userTokensAt ms i := by
        intro i hi
        exact if_neg (fun he => hmem (by rw [he]; exact hi))
      rw [List.map_congr_left htl, ih is his hms]
      rw [show (if m.role = Role.user ∧ m.idx ∈ is then m.tokens.getD 0 else 0) = 0 from
        if_neg (fun hand => hmem hand.2), zero_add]

/-- Claim C4 (amended): under valid input (unique message `idx`, non-negative
token counts) `calculateTokenWaste` returns exactly the specified value -
`100 * waste_tokens / total_tokens` over the union of repetition evidence
indices, `0` when `total_tokens = 0` - and the result lies in `[0, 100]`.
(For duplicate `idx` values the code counts only the first matching message
per index, so the unique-`idx` hypothesis is needed; see the
counterexample.) -/
theorem tokenWaste_spec (messages : List TranscriptMessage) (events : List DriftEvent)
    (hUniq : (messages.map (fun m => m.idx)).Nodup)
    (hNonneg : ∀ m ∈ messages, 0 ≤ m.tokens.getD 0) :
    calculateTokenWaste messages events = specTokenWaste messages events ∧
    0 ≤ calculateTokenWaste messages events ∧
    calculateTokenWaste messages events ≤ 100 := by
  have hwaste_eq : (((events.filter (fun e => e.type == "repetition_cluster")).flatMap
        (fun e => e.evidence.msg_idxs)).dedup.map (userTokensAt messages)).sum
      = (messages.map (fun m =>
          if m.role = Role.user ∧ m.idx ∈ specWasteIdxs events then m.tokens.getD 0
          else 0)).sum := by
    rw [sum_userTokensAt_eq messages _ (List.nodup_dedup _) hUniq]
    refine congrArg List.sum (List.map_congr_left ?_)
    intro m _
    exact if_congr (and_congr_right fun _ => List.mem_dedup) rfl rfl
  have hw0 : 0 ≤ (messages.map (fun m =>
      if m.role = Role.user ∧ m.idx ∈ specWasteIdxs events then m.tokens.getD 0
      else 0)).sum := by
    apply List.sum_nonneg
    intro x hx
    rcases List.mem_map.mp hx with ⟨m, hm, he⟩
    rw [← he]
    split
    · exact hNonneg m hm
    · exact le_refl 0
  have hwt : (messages.map (fun m =>
        if m.role = Role.user ∧ m.idx ∈ specWasteIdxs events then m.tokens.getD 0
        else 0)).sum ≤ (messages.map (fun m => m.tokens.getD 0)).sum := by
    apply List.sum_le_sum
    intro m hm
    split
    · exact le_refl _
    · exact hNonneg m hm
  have htot0 : 0 ≤ (messages.map (fun m => m.tokens.getD 0)).sum := by
    apply List.sum_nonneg
    intro x hx
    rcases List.mem_map.mp hx with ⟨m, hm, he⟩
    rw [← he]
    exact hNonneg m hm
  by_cases hrep : events.filter (fun e => e.type == "repetition_cluster") = []
  · have hcode : calculateTokenWaste messages events = 0 := by
      rw [calculateTokenWaste_eq, if_pos hrep]
    have hwidx : specWasteIdxs events = [] := by
      unfold specWasteIdxs
      rw [hrep]
      rfl
    have hsw : (messages.map (fun m =>
        if m.role = Role.user ∧ m.idx ∈ specWasteIdxs events then m.tokens.getD 0
        else 0)).sum = 0 := by
      apply List.sum_eq_zero
      intro x hx
      rcases List.mem_map.mp hx with ⟨m, _, he⟩
      rw [← he, if_neg]
      rw [hwidx]
      rintro ⟨-, hmem⟩
      simp at hmem
    have hspec : specTokenWaste messages events = 0 := by
      rw [specTokenWaste_eq]
      split
      · rfl
      · rw [hsw, mul_zero, zero_div]
    rw [hcode, hspec]
    exact ⟨rfl, le_refl 0, by norm_num⟩
  · rw [calculateTokenWaste_eq, if_neg hrep, specTokenWaste_eq]
    by_cases htz : (messages.map (fun m => m.tokens.getD 0)).sum = 0
    · rw [if_pos htz, if_pos htz]
      exact ⟨rfl, le_refl 0, by norm_num⟩
    · rw [if_neg htz, if_neg htz, hwaste_eq]
      have htpos : 0 < (messages.map (fun m => m.tokens.getD 0)).sum :=
        lt_of_le_of_ne htot0 (Ne.symm htz)
      refine ⟨by ring, ?_, ?_⟩
      · exact mul_nonneg (div_nonneg hw0 htot0) (by norm_num)
      · have hd1 : (messages.map (fun m =>
              if m.role = Role.user ∧ m.idx ∈ specWasteIdxs events then m.tokens.getD 0
              else 0)).sum / (messages.map (fun m => m.tokens.getD 0)).sum ≤ 1 :=
          (div_le_one htpos).mpr hwt
        calc (messages.map (fun m =>
              if m.role = Role.user ∧ m.idx ∈ specWasteIdxs events then m.tokens.getD 0
              else 0)).sum / (messages.map (fun m => m.tokens.getD 0)).sum * 100
            ≤ 1 * 100 := mul_le_mul_of_nonneg_right hd1 (by norm_num)
          _ = 100 := one_mul 100

/-- A repetition event whose evidence points at message index 0. -/
def repEvent0 : DriftEvent :=
  { type := "repetition_cluster", severity := 2, confidence := 1,
    evidence := { msg_idxs := [0], snippets := ["same ask"] }, summary := "repeated" }

/-- A user message with index 0 and 10 tokens. -/
def dupMsg : TranscriptMessage :=
  { idx := 0, role := Role.user, content := "same ask", tokens := some 10 }

lemma dup_total :
    (([dupMsg, dupMsg] : List TranscriptMessage).map (fun m => m.tokens.getD 0)).sum
      = 20 := by
  simp only [List.map_cons, List.map_nil, List.sum_cons, List.sum_nil]
  norm_num [dupMsg]

/-- Counterexample to claim C4 as stated: with two user messages sharing
`idx = 0` (10 tokens each) and one repetition event with evidence `[0]`,
the code counts only the first matching message (`waste = 10` of
`total = 20`, giving 50), while the claimed sum over all user messages with
`idx` in the union gives `waste = 20` (100). -/
theorem tokenWaste_duplicate_idx_counterexample :
    calculateTokenWaste [dupMsg, dupMsg] [repEvent0]
      ≠ specTokenWaste [dupMsg, dupMsg] [repEvent0] := by
  have hcode : calculateTokenWaste [dupMsg, dupMsg] [repEvent0] = 50 := by
    rw [calculateTokenWaste_eq]
    rw [show ([repEvent0].filter (fun e => e.type == "repetition_cluster")) = [repEvent0]
      from rfl]
    rw [if_neg (by simp), dup_total, if_neg (by norm_num)]
    rw [show (([repEvent0].flatMap (fun e => e.evidence.msg_idxs)).dedup) = [0] from rfl]
    rw [show (([0] : List Int).map (userTokensAt [dupMsg, dupMsg]))
      = [10] from by rw [List.map_cons, List.map_nil,
        show userTokensAt [dupMsg, dupMsg] 0 = 10 from rfl]]
    norm_num
  have hspec : specTokenWaste [dupMsg, dupMsg] [repEvent0] = 100 := by
    rw [specTokenWaste_eq, dup_total, if_neg (by norm_num)]
    rw [show (([dupMsg, dupMsg] : List TranscriptMessage).map (fun m =>
        if m.role = Role.user ∧ m.idx ∈ specWasteIdxs [repEvent0] then m.tokens.getD 0
        else 0)) = [10, 10] from by
      rw [List.map_cons, List.map_cons, List.map_nil,
        show (if dupMsg.role = Role.user ∧ dupMsg.idx ∈ specWasteIdxs [repEvent0]
          then dupMsg.tokens.getD 0 else 0) = 10 from rfl]]
    norm_num
  rw [hcode, hspec]
  norm_num

/-- A second message with a distinct index, assistant role, 30 tokens. -/
def otherMsg : TranscriptMessage :=
  { idx := 1, role := Role.assistant, content := "sure", tokens := some 30 }

/-- Witness for claim C4 (amended) at a concrete input: one user message
(10 tokens, repeated per the event evidence) and one assistant message
(30 tokens) have unique indices and non-negative tokens, so the code value
equals the specified value there. -/
theorem tokenWaste_spec_witness :
    calculateTokenWaste [dupMsg, otherMsg] [repEvent0]
      = specTokenWaste [dupMsg, otherMsg] [repEvent0] :=
  (tokenWaste_spec [dupMsg, otherMsg] [repEvent0] (by decide)
    (by intro m hm
        rcases List.mem_cons.mp hm with h | h
        · rw [h]; norm_num [dupMsg]
        · rcases List.mem_cons.mp h with h2 | h2
          · rw [h2]; norm_num [otherMsg]
          · simp at h2)).1

lemma userTokensAt_eq_zero_of_not_any (messages : List TranscriptMessage) (i : Int)
    (h : messages.any (fun m => m.idx == i) = false) : userTokensAt messages i = 0 := by
  unfold userTokensAt
  rw [List.find?_eq_none.mpr (List.any_eq_false.mp h)]

lemma sum_map_filter_of_zero (u : Int → ℚ) (p : Int → Bool) (l : List Int)
    (h : ∀ i, p i = false → u i = 0) :
    (l.map u).sum = ((l.filter p).map u).sum := by
  induction l with
  | nil => rfl
  | cons a l ih =>
    by_cases hp : p a
    · simp [List.filter_cons, hp, ih]
    · have hz : u a = 0 := h a (by simpa using hp)
      simp [List.filter_cons, hp, ih, hz]

lemma perm_of_nodup_mem_iff {l1 l2 : List Int} (h1 : l1.Nodup) (h2 : l2.Nodup)
    (hm : ∀ x, x ∈ l1 ↔ x ∈ l2) : List.Perm l1 l2 := by
  rw [List.perm_iff_count]
  intro a
  by_cases ha : a ∈ l1
  · rw [List.count_eq_one_of_mem h1 ha, List.count_eq_one_of_mem h2 ((hm a).mp ha)]
  · rw [List.count_eq_zero_of_not_mem ha,
      List.count_eq_zero_of_not_mem (fun hb => ha ((hm a).mpr hb))]

lemma sum_dedup_filter (is : List Int) (p : Int → Bool) (u : Int → ℚ)
    (hz : ∀ i, p i = false → u i = 0) :
    ((is.filter p).dedup.map u).sum = (is.dedup.map u).sum := by
  have h1 : (is.dedup.map u).sum = ((is.dedup.filter p).map u).sum :=
    sum_map_filter_of_zero u p is.dedup hz
  have hperm : List.Perm (is.filter p).dedup (is.dedup.filter p) := by
    refine perm_of_nodup_mem_iff (List.nodup_dedup _) ((List.nodup_dedup is).filter p) ?_
    intro x
    rw [List.mem_dedup, List.mem_filter, List.mem_filter, List.mem_dedup]
  rw [h1, (hperm.map u).sum_eq]

lemma flatMap_filter (l : List DriftEvent) (g : DriftEvent → List Int) (p : Int → Bool) :
    l.flatMap (fun e => (g e).filter p) = (l.flatMap g).filter p := by
  induction l with
  | nil => rfl
  | cons a l ih => rw [List.flatMap_cons, List.flatMap_cons, List.filter_append, ih]

lemma userTokensAt_defined_tokens (messages : List TranscriptMessage) (i : Int) :
    userTokensAt (messages.map (fun m => { m with tokens := some (m.tokens.getD 0) })) i
      = userTokensAt messages i := by
  induction messages with
  | nil => rfl
  | cons m ms ih =>
    rw [List.map_cons, userTokensAt_cons, userTokensAt_cons, ih]
    rfl

/-- Claim C10: `calculateTokenWaste` is a total function (it is a plain Lean
function into `ℚ`, so it returns a value on every input) that silently
tolerates incomplete data: filtering out of the evidence every `msg_idx` that
matches no message changes nothing (a dangling reference contributes `0`),
and replacing every absent `tokens` field by an explicit `0` changes nothing
(a message without `tokens` contributes `0` to both sums). -/
theorem tokenWaste_total_tolerant (messages : List TranscriptMessage)
    (events : List DriftEvent) :
    calculateTokenWaste messages events
        = calculateTokenWaste messages (events.map (fun e =>
            { e with evidence := { e.evidence with
                msg_idxs := e.evidence.msg_idxs.filter
                  (fun i => messages.any (fun m => m.idx == i)) } })) ∧
    calculateTokenWaste messages events
        = calculateTokenWaste
            (messages.map (fun m => { m with tokens := some (m.tokens.getD 0) }))
            events := by
  constructor
  · rw [calculateTokenWaste_eq, calculateTokenWaste_eq]
    have hA : (events.map (fun e =>
          { e with evidence := { e.evidence with
              msg_idxs := e.evidence.msg_idxs.filter
                (fun i => messages.any (fun m => m.idx == i)) } })).filter
          (fun e => e.type == "repetition_cluster")
        = (events.filter (fun e => e.type == "repetition_cluster")).map (fun e =>
            { e with evidence := { e.evidence with
                msg_idxs := e.evidence.msg_idxs.filter
                  (fun i => messages.any (fun m => m.idx == i)) } }) := by
      rw [List.filter_map]
      rfl
    rw [hA]
    by_cases hrep : events.filter (fun e => e.type == "repetition_cluster") = []
    · rw [if_pos hrep, hrep, List.map_nil, if_pos rfl]
    · rw [if_neg hrep, if_neg (fun hc => hrep (List.map_eq_nil_iff.mp hc))]
      have hFlat : ((events.filter (fun e => e.type == "repetition_cluster")).map (fun e =>
            { e with evidence := { e.evidence with
                msg_idxs := e.evidence.msg_idxs.filter
                  (fun i => messages.any (fun m => m.idx == i)) } })).flatMap
            (fun e => e.evidence.msg_idxs)
          = ((events.filter (fun e => e.type == "repetition_cluster")).flatMap
              (fun e => e.evidence.msg_idxs)).filter
              (fun i => messages.any (fun m => m.idx == i)) := by
        rw [List.flatMap_map]
        exact flatMap_filter _ _ _
      rw [hFlat,
        sum_dedup_filter _ _ _ (userTokensAt_eq_zero_of_not_any messages)]
  · rw [calculateTokenWaste_eq, calculateTokenWaste_eq]
    have htot : ((messages.map (fun m => { m with tokens := some (m.tokens.getD 0) })).map
          (fun m => m.tokens.getD 0)).sum
        = (messages.map (fun m => m.tokens.getD 0)).sum := by
      rw [List.map_map]
      rfl
    rw [htot]
    have hu : (((events.filter (fun e => e.type == "repetition_cluster")).flatMap
          (fun e => e.evidence.msg_idxs)).dedup.map
          (userTokensAt (messages.map (fun m =>
            { m with tokens := some (m.tokens.getD 0) })))).sum
        = (((events.filter (fun e => e.type == "repetition_cluster")).flatMap
            (fun e => e.evidence.msg_idxs)).dedup.map (userTokensAt messages)).sum :=
      congrArg List.sum
        (List.map_congr_left fun i _ => userTokensAt_defined_tokens messages i)
    rw [hu]

end Memograph
